import Mathlib

set_option maxRecDepth 8000

/- Shallow embedding of lib/ansible/parsing/vault/__init__.py.

   Byte strings are modelled as List Nat (each element one byte value).
   The cryptographic primitives (PBKDF2, the AES-CTR keystream, HMAC-SHA256,
   and the legacy VaultAES CBC cipher) are external library primitives in the
   source; they are modelled as parameters gathered in CryptoPrims. -/

/- Byte-string helpers. -/

def bstr (s : String) : List Nat := s.data.map Char.toNat

def bHEADER : List Nat := bstr "$ANSIBLE_VAULT"

/- Python bytes.split(sep, 1): first part and, when sep occurs, the remainder. -/
def splitFirst (sep : Nat) : List Nat → List Nat × Option (List Nat)
  | [] => ([], none)
  | c :: rest =>
    if c = sep then ([], some rest)
    else
      let r := splitFirst sep rest
      (c :: r.1, r.2)

/- Python bytes.split(sep) with no limit. -/
def splitAll (sep : Nat) : List Nat → List (List Nat)
  | [] => [[]]
  | c :: rest =>
    if c = sep then [] :: splitAll sep rest
    else
      match splitAll sep rest with
      | [] => [[c]]
      | p :: ps => (c :: p) :: ps

/- Python bytes.strip() whitespace set: space, tab, newline, carriage return,
   vertical tab, form feed. -/
def isSpaceByte (b : Nat) : Bool := b = 32 || b = 9 || b = 10 || b = 13 || b = 11 || b = 12

def stripBytes (s : List Nat) : List Nat :=
  ((s.dropWhile isSpaceByte).reverse.dropWhile isSpaceByte).reverse

/- Python bytes.replace with the newline byte removed everywhere. -/
def removeNL (s : List Nat) : List Nat := s.filter (fun b => b != 10)

/- Python comparison of two bytes objects (lexicographic on byte values). -/
def bytesLt : List Nat → List Nat → Bool
  | [], [] => false
  | [], _ :: _ => true
  | _ :: _, [] => false
  | x :: xs, y :: ys => if x < y then true else if y < x then false else bytesLt xs ys

/- Python comparison of two lists of bytes objects (lexicographic). -/
def listBytesLt : List (List Nat) → List (List Nat) → Bool
  | [], [] => false
  | [], _ :: _ => true
  | _ :: _, [] => false
  | x :: xs, y :: ys => if bytesLt x y then true else if bytesLt y x then false else listBytesLt xs ys

def listBytesGe (a b : List (List Nat)) : Bool := ! listBytesLt a b

/- Standard base64 (Python base64.b64encode / b64decode on valid input). -/

def b64Table : List Nat := bstr "ABCDEFGHIJKLMNOPQRSTUVWXYZabcdefghijklmnopqrstuvwxyz0123456789+/"

def b64chr (i : Nat) : Nat := b64Table.getD i 0

def b64dec (c : Nat) : Nat := b64Table.findIdx (fun x => x == c)

def b64encode : List Nat → List Nat
  | [] => []
  | [a] => [b64chr (a / 4), b64chr (a % 4 * 16), 61, 61]
  | [a, b] => [b64chr (a / 4), b64chr (a % 4 * 16 + b / 16), b64chr (b % 16 * 4), 61]
  | a :: b :: c :: rest =>
    b64chr (a / 4) :: b64chr (a % 4 * 16 + b / 16) :: b64chr (b % 16 * 4 + c / 64) ::
      b64chr (c % 64) :: b64encode rest

def b64decode : List Nat → List Nat
  | c1 :: c2 :: c3 :: c4 :: rest =>
    if c3 = 61 then [b64dec c1 * 4 + b64dec c2 / 16]
    else if c4 = 61 then
      [b64dec c1 * 4 + b64dec c2 / 16, b64dec c2 % 16 * 16 + b64dec c3 / 4]
    else
      (b64dec c1 * 4 + b64dec c2 / 16) :: (b64dec c2 % 16 * 16 + b64dec c3 / 4) ::
        (b64dec c3 % 4 * 64 + b64dec c4) :: b64decode rest
  | _ => []

/- binascii hexlify and unhexlify (on well-formed input). -/

def hexVal (c : Nat) : Nat :=
  if 48 ≤ c ∧ c ≤ 57 then c - 48
  else if 97 ≤ c ∧ c ≤ 102 then c - 87
  else if 65 ≤ c ∧ c ≤ 70 then c - 55
  else 0

def unhexlify : List Nat → List Nat
  | a :: b :: rest => (hexVal a * 16 + hexVal b) :: unhexlify rest
  | _ => []

def hexDigit (n : Nat) : Nat := if n < 10 then 48 + n else 87 + n

def hexlify : List Nat → List Nat
  | [] => []
  | b :: rest => hexDigit (b / 16) :: hexDigit (b % 16) :: hexlify rest

/- int(hexlify(bytes), 16): the big-endian integer value of a byte string. -/
def bytesBE (l : List Nat) : Nat := l.foldl (fun acc b => acc * 256 + b) 0

/- The 80-column wrapping in VaultAES256.encrypt: message[i:i+80] segments,
   each followed by one newline byte. -/
def wrap80 (s : List Nat) : List Nat :=
  if h : s = [] then []
  else s.take 80 ++ 10 :: wrap80 (s.drop 80)
termination_by s.length
decreasing_by
  have hp : 0 < s.length := List.length_pos.mpr h
  simp only [List.length_drop]
  omega

/- Result of a cipher decrypt call: a plaintext, the None return used for a
   MAC failure, or an uncaught exception (err). -/
inductive DecResult where
  | ok (pt : List Nat)
  | fail
  | err
deriving DecidableEq

/- The external cryptographic primitives, abstracted:
   kdf password salt dkLen models PBKDF2-HMAC-SHA256 with 10000 iterations;
   ks key iv i models byte i of the AES-CTR keystream for a 128-bit counter
   starting at iv; hmac key message models HMAC-SHA256; aesLegacy body password
   models the obsolete VaultAES (CBC) decrypt path, which no claim exercises. -/
structure CryptoPrims where
  kdf : List Nat → List Nat → Nat → List Nat
  ks : List Nat → Nat → Nat → Nat
  hmac : List Nat → List Nat → List Nat
  aesLegacy : List Nat → List Nat → DecResult

/- VaultAES256.gen_key_initctr. -/
def genKeyInitctr (p : CryptoPrims) (password salt : List Nat) (generateIv : Bool) :
    List Nat × List Nat × Nat :=
  let keylength := 32
  let ivlength := if generateIv then 16 else 0
  let derivedkey := p.kdf password salt (2 * keylength + ivlength)
  let key1 := derivedkey.take keylength
  let key2 := (derivedkey.drop keylength).take keylength
  let iv := if generateIv then bytesBE ((derivedkey.drop (keylength * 2)).take ivlength) else 0
  (key1, key2, iv)

/- AES-CTR encryption and decryption: XOR with the keystream, byte by byte. -/
def ctrXor (f : Nat → Nat) : Nat → List Nat → List Nat
  | _, [] => []
  | i, b :: rest => (b ^^^ f i) :: ctrXor f (i + 1) rest

/- The ciphertext computed inside VaultAES256.encrypt. -/
def aes256Ct (p : CryptoPrims) (salt plaintext password : List Nat) : List Nat :=
  let kiv := genKeyInitctr p password salt false
  ctrXor (p.ks kiv.1 kiv.2.2) 0 plaintext

/- hmac.digest() over the ciphertext inside VaultAES256.encrypt. -/
def aes256Mac (p : CryptoPrims) (salt plaintext password : List Nat) : List Nat :=
  p.hmac (genKeyInitctr p password salt false).2.1 (aes256Ct p salt plaintext password)

/- salt + hmac.digest() + ciphertext. -/
def aes256Message (p : CryptoPrims) (salt plaintext password : List Nat) : List Nat :=
  salt ++ aes256Mac p salt plaintext password ++ aes256Ct p salt plaintext password

/- VaultAES256.encrypt.  The 32 random bytes drawn from os.urandom are passed
   in as the salt argument. -/
def aes256Encrypt (p : CryptoPrims) (salt plaintext password : List Nat) : List Nat :=
  wrap80 (b64encode (aes256Message p salt plaintext password))

/- VaultAES256.is_equal. -/
def is_equal (a b : List Nat) : Bool :=
  if a.length ≠ b.length then false
  else ((a.zip b).foldl (fun r q => r ||| (q.1 ^^^ q.2)) 0) == 0

/- plaintext[:-n] in Python for n ≥ 0 (note that n = 0 yields the empty
   string, because -0 is 0). -/
def pySliceDropLast (l : List Nat) (n : Nat) : List Nat :=
  if n = 0 then [] else l.take (l.length - n)

/- The salt, mac and ciphertext slices taken in the non-1.1 branch of
   VaultAES256.decrypt: message[0:32], message[32:64], message[64:]. -/
def aes256Extract (message : List Nat) : List Nat × List Nat × List Nat :=
  let m := b64decode (removeNL message)
  (m.take 32, ((m.drop 32).take 32, m.drop 64))

/- The 1.1 branch of VaultAES256.decrypt up to the key derivation: unhexlify,
   split into exactly three newline-separated hex fields, unhexlify each.
   A failed three-way unpacking is an uncaught ValueError, modelled as none. -/
def aes256Parse11 (message : List Nat) : Option (List Nat × List Nat × List Nat) :=
  let m := unhexlify (removeNL message)
  match splitFirst 10 m with
  | (_, none) => none
  | (saltH, some rest) =>
    match splitFirst 10 rest with
    | (_, none) => none
    | (macH, some ctH) => some (unhexlify saltH, (unhexlify macH, unhexlify ctH))

/- The tail of VaultAES256.decrypt shared by both branches: the MAC check,
   the CTR decryption, and for version 1.1 the trailing-padding strip
   (an empty plaintext there raises IndexError, modelled as err). -/
def decryptCommon (p : CryptoPrims) (key1 key2 : List Nat) (iv : Nat)
    (mac ciphertext : List Nat) (stripPad : Bool) : DecResult :=
  if is_equal mac (p.hmac key2 ciphertext) = false then .fail
  else
    let plaintext := ctrXor (p.ks key1 iv) 0 ciphertext
    if stripPad then
      match plaintext.getLast? with
      | none => .err
      | some n => .ok (pySliceDropLast plaintext n)
    else .ok plaintext

/- VaultAES256.decrypt. -/
def aes256Decrypt (p : CryptoPrims) (message password : List Nat)
    (version : Option (List Nat)) : DecResult :=
  if version = some (bstr "1.1") then
    match aes256Parse11 message with
    | none => .err
    | some (salt, mac, ciphertext) =>
      let kiv := genKeyInitctr p password salt true
      decryptCommon p kiv.1 kiv.2.1 kiv.2.2 mac ciphertext true
  else
    let e := aes256Extract message
    let kiv := genKeyInitctr p password e.1 false
    decryptCommon p kiv.1 kiv.2.1 kiv.2.2 e.2.1 e.2.2 false

/- The error taxonomy of the AnsibleError raises in the module, by spec name.
   InternalError stands for an uncaught exception escaping the module. -/
inductive VaultError where
  | NotVault
  | MalformedHeader
  | UnknownCipher
  | DecryptionFailed
  | AlreadyEncrypted
  | PasswordRequired
  | InternalError
  | IoError
deriving DecidableEq

/- VaultLib._add_vault_header: HEADER;1.2;cipher_name;cipher_version newline
   ciphertext. -/
def addVaultHeader (cipherName cipherVersion ciphertext : List Nat) : List Nat :=
  bHEADER ++ 59 :: (bstr "1.2" ++ 59 :: (cipherName ++ 59 :: (cipherVersion ++ 10 :: ciphertext)))

deriving instance DecidableEq for Except

/- The semicolon-separated fields of the stripped first line. -/
def headerFields (data : List Nat) : List (List Nat) :=
  splitAll 59 (stripBytes (splitFirst 10 data).1)

/- The stripped container-version field. -/
def headerVersion (data : List Nat) : List Nat :=
  stripBytes ((headerFields data).getD 1 [])

/- The version test of the source: Python list comparison of the byte
   strings obtained by splitting the version field on dots. -/
def versionGe12 (data : List Nat) : Bool :=
  listBytesGe (splitAll 46 (headerVersion data)) [bstr "1", bstr "2"]

/- VaultLib._parse_vault_header. -/
def parseVaultHeader (data : List Nat) :
    Except VaultError (List Nat × List Nat × List Nat × Option (List Nat)) :=
  let header := headerFields data
  if 3 ≤ header.length ∧ header.headD [] = bHEADER then
    let v := headerVersion data
    if versionGe12 data = true then
      if header.length = 4 then
        .ok (v, (stripBytes (header.getD 2 []), (stripBytes (header.getD 3 []),
          (splitFirst 10 data).2)))
      else .error .MalformedHeader
    else if header.length = 3 then
      .ok (v, (stripBytes (header.getD 2 []), (v, (splitFirst 10 data).2)))
    else .error .MalformedHeader
  else .error .NotVault

/- VaultLib.is_encrypted. -/
def isVaultEncrypted (data : List Nat) : Bool := bHEADER.isPrefixOf data

/- The cipher-name selection in VaultLib.encrypt: anything empty, absent, or
   outside CIPHER_WRITE_WHITELIST (= the singleton AES256) becomes AES256. -/
def vaultCipherForWrite (cipherName : Option (List Nat)) : List Nat :=
  match cipherName with
  | none => bstr "AES256"
  | some c => if c = [] ∨ c ≠ bstr "AES256" then bstr "AES256" else c

/- VaultLib.encrypt. -/
def vaultEncrypt (p : CryptoPrims) (salt password plaintext : List Nat)
    (cipherName : Option (List Nat)) : Except VaultError (List Nat) :=
  if isVaultEncrypted plaintext then .error .AlreadyEncrypted
  else
    let cname := vaultCipherForWrite cipherName
    let ciphertext := aes256Encrypt p salt plaintext password
    .ok (addVaultHeader cname (bstr "1.2") ciphertext)

/- VaultLib.decrypt.  A None passphrase raises PasswordRequired; a missing
   body means cipher.decrypt receives None and crashes, modelled as
   InternalError. -/
def vaultDecrypt (p : CryptoPrims) (bPassword : Option (List Nat)) (data : List Nat) :
    Except VaultError (List Nat × List Nat × List Nat × List Nat) :=
  match bPassword with
  | none => .error .PasswordRequired
  | some password =>
    match parseVaultHeader data with
    | .error e => .error e
    | .ok (vv, cname, cver, bodyOpt) =>
      if cname = bstr "AES256" then
        match bodyOpt with
        | none => .error .InternalError
        | some body =>
          match aes256Decrypt p body password (some cver) with
          | .ok pt => .ok (vv, (cname, (cver, pt)))
          | .fail => .error .DecryptionFailed
          | .err => .error .InternalError
      else if cname = bstr "AES" then
        match bodyOpt with
        | none => .error .InternalError
        | some body =>
          match p.aesLegacy body password with
          | .ok pt => .ok (vv, (cname, (cver, pt)))
          | .fail => .error .DecryptionFailed
          | .err => .error .InternalError
      else .error .UnknownCipher

/- The filesystem state visible to VaultEditor.rekey_file: one target file
   with a stat (mode, uid, gid) and contents. -/
structure VFileStat where
  mode : Nat
  uid : Nat
  gid : Nat
deriving DecidableEq

structure VFile where
  stat : VFileStat
  contents : List Nat
deriving DecidableEq

/- VaultEditor.rekey_file: stat the file, read, decrypt under the old
   passphrase, encrypt under the new one, write_data (shred and remove the
   old file, then create a fresh file whose stat is the platform default),
   then chmod and chown back to the captured stat. -/
def rekeyFile (p : CryptoPrims) (dflt : VFileStat) (oldPassword newPassword salt : List Nat)
    (cipherName : Option (List Nat)) (fs : Option VFile) : Except VaultError (Option VFile) :=
  match fs with
  | none => .error .IoError
  | some f =>
    let prev := f.stat
    match vaultDecrypt p (some oldPassword) f.contents with
    | .error e => .error e
    | .ok r =>
      match vaultEncrypt p salt newPassword r.2.2.2 cipherName with
      | .error e => .error e
      | .ok newCiphertext =>
        let written : VFile := VFile.mk dflt newCiphertext
        let afterChmod : VFile := VFile.mk (VFileStat.mk prev.mode written.stat.uid written.stat.gid) written.contents
        let afterChown : VFile := VFile.mk (VFileStat.mk afterChmod.stat.mode prev.uid prev.gid) afterChmod.contents
        .ok (some afterChown)

/- One overwrite pass of VaultEditor._shred_file_custom: from offset 0, write
   the random chunk file_len // chunk_len times, then the first
   file_len % chunk_len bytes of it.  The bytes written in one pass: -/
def shredPassData (data : List Nat) (fileLen : Nat) : List Nat :=
  (List.replicate (fileLen / data.length) data).flatten ++ data.take (fileLen % data.length)

/- Modelled from the spec: integer comparison of dotted version components
   (each component read as a decimal integer, compared lexicographically),
   as the spec words the container-version test.  This is the comparison the
   claims measure the code against; it is not part of the source. -/
def digitsToNat (digits : List Nat) : Nat := digits.foldl (fun a c => a * 10 + (c - 48)) 0

def versionComponents (v : List Nat) : List Nat := (splitAll 46 v).map digitsToNat

def natListLt : List Nat → List Nat → Bool
  | [], [] => false
  | [], _ :: _ => true
  | _ :: _, [] => false
  | x :: xs, y :: ys => if x < y then true else if y < x then false else natListLt xs ys

def natListLexGe (a b : List Nat) : Bool := ! natListLt a b

/- A concrete, trivial instantiation of the primitives, used to exercise the
   embedding on closed inputs. -/
def prims0 : CryptoPrims :=
  CryptoPrims.mk (fun _ _ n => List.replicate n 0) (fun _ _ _ => 0)
    (fun _ _ => List.replicate 32 0) (fun _ _ => DecResult.fail)

/- The properties of the real primitives that proofs rely on: PBKDF2 returns
   the requested number of bytes, the HMAC digest is 32 bytes of byte values,
   and keystream values are byte values. -/
def PrimsOK (p : CryptoPrims) : Prop :=
  (∀ pw s n, (p.kdf pw s n).length = n) ∧
  (∀ k m, (p.hmac k m).length = 32) ∧
  (∀ k m x, x ∈ p.hmac k m → x < 256) ∧
  (∀ k iv i, p.ks k iv i < 256)

/- Concrete inputs used to exercise the embedding on closed values. -/

def salt0 : List Nat := List.replicate 32 0

def pw0 : List Nat := bstr "pw"

def pt0 : List Nat := bstr "hi"

def blob0 : List Nat :=
  addVaultHeader (bstr "AES256") (bstr "1.2") (aes256Encrypt prims0 salt0 pt0 pw0)

def body0 : List Nat := b64encode (List.replicate 32 0 ++ List.replicate 32 1)

def data0 : List Nat := addVaultHeader (bstr "AES256") (bstr "1.2") body0

def body9 : List Nat := b64encode (List.replicate 10 0)

def data9 : List Nat := addVaultHeader (bstr "AES256") (bstr "1.2") body9

def fileA : VFile := VFile.mk (VFileStat.mk 420 1000 1000) blob0

def fileB : VFile := VFile.mk (VFileStat.mk 420 1000 1000)
  (addVaultHeader (bstr "AES256") (bstr "1.2") (aes256Encrypt prims0 salt0 pt0 (bstr "new")))

/- The CTR decryption step of VaultAES256.decrypt: derive the keys for the
   given mode and XOR the ciphertext with the keystream. -/
def ctrDecrypt (p : CryptoPrims) (pw salt ct : List Nat) (generateIv : Bool) : List Nat :=
  let kiv := genKeyInitctr p pw salt generateIv
  ctrXor (p.ks kiv.1 kiv.2.2) 0 ct

def msg11 : List Nat := hexlify (bstr "00" ++ 10 :: (List.replicate 64 48 ++ 10 :: bstr "0501"))

def msg11z : List Nat := hexlify (bstr "00" ++ 10 :: (List.replicate 64 48 ++ 10 :: bstr "0500"))


/- Lemmas about the bitwise accumulator in is_equal. -/

theorem nat_lor_eq_zero (x y : Nat) (h : x ||| y = 0) : x = 0 ∧ y = 0 := by
  have ht : ∀ i, (x.testBit i || y.testBit i) = false := by
    intro i
    have hz := congrArg (fun n => Nat.testBit n i) h
    simpa [Nat.testBit_lor, Nat.zero_testBit] using hz
  constructor
  · apply Nat.eq_of_testBit_eq
    intro i
    have := ht i
    simp [Nat.zero_testBit]
    exact (Bool.or_eq_false_iff.mp this).1
  · apply Nat.eq_of_testBit_eq
    intro i
    have := ht i
    simp [Nat.zero_testBit]
    exact (Bool.or_eq_false_iff.mp this).2

theorem foldl_lor_zero (l : List (Nat × Nat)) :
    ∀ acc : Nat,
      (l.foldl (fun r q => r ||| (q.1 ^^^ q.2)) acc = 0 ↔
        (acc = 0 ∧ ∀ q ∈ l, q.1 ^^^ q.2 = 0)) := by
  induction l with
  | nil => intro acc; simp
  | cons hd tl ih =>
    intro acc
    simp only [List.foldl_cons, List.mem_cons]
    rw [ih]
    constructor
    · rintro ⟨h1, h2⟩
      obtain ⟨ha, hb⟩ := nat_lor_eq_zero _ _ h1
      exact ⟨ha, fun q hq => hq.elim (fun e => e ▸ hb) (h2 q)⟩
    · rintro ⟨ha, hb⟩
      refine ⟨?_, fun q hq => hb q (Or.inr hq)⟩
      rw [ha, hb hd (Or.inl rfl)]
      decide

theorem zip_xor_zero_iff (a : List Nat) :
    ∀ b : List Nat, a.length = b.length →
      ((∀ q ∈ a.zip b, q.1 ^^^ q.2 = 0) ↔ a = b) := by
  induction a with
  | nil =>
    intro b h
    cases b with
    | nil => simp
    | cons y ys => simp at h
  | cons x xs ih =>
    intro b h
    cases b with
    | nil => simp at h
    | cons y ys =>
      have hlen : xs.length = ys.length := by simpa using h
      simp only [List.zip_cons_cons, List.mem_cons, List.cons.injEq]
      constructor
      · intro hq
        have hx : x ^^^ y = 0 := hq (x, y) (Or.inl rfl)
        exact ⟨Nat.xor_eq_zero.mp hx, (ih ys hlen).mp (fun q hqq => hq q (Or.inr hqq))⟩
      · rintro ⟨hx, hrest⟩
        intro q hq
        rcases hq with hq | hq
        · rw [hq]; simpa using Nat.xor_eq_zero.mpr hx
        · exact ((ih ys hlen).mpr hrest) q hq

theorem is_equal_shape (a b : List Nat) :
    is_equal a b = true ↔
      (a.length = b.length ∧ (a.zip b).foldl (fun r q => r ||| (q.1 ^^^ q.2)) 0 = 0) := by
  unfold is_equal
  by_cases h : a.length = b.length
  · simp [h]
  · simp [h]

theorem is_equal_true_iff (a b : List Nat) : is_equal a b = true ↔ a = b := by
  rw [is_equal_shape]
  constructor
  · rintro ⟨hlen, hfold⟩
    have := (foldl_lor_zero _ 0).mp hfold
    exact (zip_xor_zero_iff a b hlen).mp this.2
  · rintro rfl
    refine ⟨rfl, ?_⟩
    rw [foldl_lor_zero]
    exact ⟨rfl, (zip_xor_zero_iff a a rfl).mpr rfl⟩

theorem is_equal_self (a : List Nat) : is_equal a a = true := (is_equal_true_iff a a).mpr rfl

theorem is_equal_false_of_ne (a b : List Nat) (h : a ≠ b) : is_equal a b = false := by
  cases he : is_equal a b with
  | false => rfl
  | true => exact absurd ((is_equal_true_iff a b).mp he) h

/-- Claim C5: is_equal returns true if and only if the two byte strings have
equal length and the byte-wise XOR accumulation over their paired bytes is
zero, which holds if and only if the two byte strings are equal. -/
theorem c5_is_equal_iff (a b : List Nat) :
    (is_equal a b = true ↔ a = b)
    ∧ (is_equal a b = true ↔
        (a.length = b.length ∧ (a.zip b).foldl (fun r q => r ||| (q.1 ^^^ q.2)) 0 = 0)) :=
  ⟨is_equal_true_iff a b, is_equal_shape a b⟩

/- CTR mode is an involution: XOR with the same keystream twice. -/

theorem ctrXor_ctrXor (f : Nat → Nat) (i : Nat) (l : List Nat) :
    ctrXor f i (ctrXor f i l) = l := by
  induction l generalizing i with
  | nil => rfl
  | cons b rest ih => simp [ctrXor, Nat.xor_cancel_right, ih]

theorem ctrXor_length (f : Nat → Nat) (i : Nat) (l : List Nat) :
    (ctrXor f i l).length = l.length := by
  induction l generalizing i with
  | nil => rfl
  | cons b rest ih => simp [ctrXor, ih]

theorem ctrXor_lt (f : Nat → Nat) (hf : ∀ k, f k < 256) (i : Nat) (l : List Nat)
    (hl : ∀ b ∈ l, b < 256) : ∀ b ∈ ctrXor f i l, b < 256 := by
  induction l generalizing i with
  | nil => intro b hb; simp [ctrXor] at hb
  | cons x rest ih =>
    intro b hb
    simp only [ctrXor, List.mem_cons] at hb
    rcases hb with hb | hb
    · subst hb
      have h1 : x < 2 ^ 8 := by simpa using hl x (List.mem_cons_self x rest)
      have h2 : f i < 2 ^ 8 := by simpa using hf i
      simpa using Nat.xor_lt_two_pow h1 h2
    · exact ih (i + 1) (fun y hy => hl y (List.mem_cons_of_mem x hy)) b hb

/- Base64 table facts, established by finite computation. -/

theorem b64Table_length : b64Table.length = 64 := by decide

theorem b64dec_b64chr : ∀ i < 64, b64dec (b64chr i) = i := by decide

theorem b64chr_ne_pad : ∀ i < 64, b64chr i ≠ 61 := by decide

theorem b64chr_ne_nl (i : Nat) : b64chr i ≠ 10 := by
  by_cases h : i < 64
  · exact (show ∀ j < 64, b64chr j ≠ 10 by decide) i h
  · have hlen : b64Table.length ≤ i := by rw [b64Table_length]; omega
    simp [b64chr, List.getD_eq_getElem?_getD, List.getElem?_eq_none hlen]

/- Decoding inverts encoding on lists of byte values. -/
theorem b64decode_b64encode : ∀ l : List Nat, (∀ b ∈ l, b < 256) → b64decode (b64encode l) = l := by
  intro l
  induction l using b64encode.induct with
  | case1 => intro _; rfl
  | case2 a =>
    intro h
    have ha : a < 256 := h a (by simp)
    have d1 : b64dec (b64chr (a / 4)) = a / 4 := b64dec_b64chr _ (by omega)
    have d2 : b64dec (b64chr (a % 4 * 16)) = a % 4 * 16 := b64dec_b64chr _ (by omega)
    simp [b64encode, b64decode, d1, d2]
    omega
  | case3 a b =>
    intro h
    have ha : a < 256 := h a (by simp)
    have hb : b < 256 := h b (by simp)
    have d1 : b64dec (b64chr (a / 4)) = a / 4 := b64dec_b64chr _ (by omega)
    have d2 : b64dec (b64chr (a % 4 * 16 + b / 16)) = a % 4 * 16 + b / 16 :=
      b64dec_b64chr _ (by omega)
    have d3 : b64dec (b64chr (b % 16 * 4)) = b % 16 * 4 := b64dec_b64chr _ (by omega)
    have n3 : b64chr (b % 16 * 4) ≠ 61 := b64chr_ne_pad _ (by omega)
    simp [b64encode, b64decode, d1, d2, d3, n3]
    omega
  | case4 a b c rest ih =>
    intro h
    have ha : a < 256 := h a (by simp)
    have hb : b < 256 := h b (by simp)
    have hc : c < 256 := h c (by simp)
    have hrest : ∀ x ∈ rest, x < 256 := fun x hx => h x (by simp [hx])
    have d1 : b64dec (b64chr (a / 4)) = a / 4 := b64dec_b64chr _ (by omega)
    have d2 : b64dec (b64chr (a % 4 * 16 + b / 16)) = a % 4 * 16 + b / 16 :=
      b64dec_b64chr _ (by omega)
    have d3 : b64dec (b64chr (b % 16 * 4 + c / 64)) = b % 16 * 4 + c / 64 :=
      b64dec_b64chr _ (by omega)
    have d4 : b64dec (b64chr (c % 64)) = c % 64 := b64dec_b64chr _ (by omega)
    have n3 : b64chr (b % 16 * 4 + c / 64) ≠ 61 := b64chr_ne_pad _ (by omega)
    have n4 : b64chr (c % 64) ≠ 61 := b64chr_ne_pad _ (by omega)
    simp [b64encode, b64decode, d1, d2, d3, d4, n3, n4, ih hrest]
    omega

/- The encoded form never contains the newline byte. -/
theorem nl_not_mem_b64encode : ∀ l : List Nat, 10 ∉ b64encode l := by
  intro l
  induction l using b64encode.induct with
  | case1 => simp [b64encode]
  | case2 a =>
    simp only [b64encode, List.mem_cons, List.not_mem_nil]
    push_neg
    exact ⟨(b64chr_ne_nl _).symm, (b64chr_ne_nl _).symm, by omega, by omega, not_false⟩
  | case3 a b =>
    simp only [b64encode, List.mem_cons, List.not_mem_nil]
    push_neg
    exact ⟨(b64chr_ne_nl _).symm, (b64chr_ne_nl _).symm, (b64chr_ne_nl _).symm, by omega, not_false⟩
  | case4 a b c rest ih =>
    simp only [b64encode, List.mem_cons]
    push_neg
    exact ⟨(b64chr_ne_nl _).symm, (b64chr_ne_nl _).symm, (b64chr_ne_nl _).symm,
      (b64chr_ne_nl _).symm, by simpa using ih⟩

/- removeNL and wrap80: stripping newlines undoes the 80-column wrapping. -/

theorem removeNL_append (a b : List Nat) : removeNL (a ++ b) = removeNL a ++ removeNL b := by
  simp [removeNL]

theorem removeNL_eq_self (s : List Nat) (h : 10 ∉ s) : removeNL s = s := by
  apply List.filter_eq_self.mpr
  intro a ha
  simp only [bne_iff_ne, ne_eq]
  intro heq
  exact h (heq ▸ ha)

theorem removeNL_wrap80 (s : List Nat) : removeNL (wrap80 s) = removeNL s := by
  induction s using wrap80.induct with
  | case1 => simp [wrap80]
  | case2 s hne ih =>
    rw [wrap80, dif_neg hne, removeNL_append]
    have h10 : removeNL (10 :: wrap80 (s.drop 80)) = removeNL (wrap80 (s.drop 80)) := by
      simp [removeNL]
    rw [h10, ih, ← removeNL_append, List.take_append_drop]

theorem removeNL_wrap80_of_no_nl (s : List Nat) (h : 10 ∉ s) : removeNL (wrap80 s) = s := by
  rw [removeNL_wrap80, removeNL_eq_self s h]

theorem wrap80_ne_nil (s : List Nat) (h : s ≠ []) : wrap80 s ≠ [] := by
  rw [wrap80, dif_neg h]
  simp

theorem wrap80_getLast (s : List Nat) (h : s ≠ []) : (wrap80 s).getLast? = some 10 := by
  induction s using wrap80.induct with
  | case1 => exact absurd rfl h
  | case2 s hne ih =>
    rw [wrap80, dif_neg hne]
    by_cases hd : s.drop 80 = []
    · rw [hd]
      have : wrap80 [] = [] := by rw [wrap80]; rfl
      rw [this]
      exact List.getLast?_concat _
    · have hw : wrap80 (s.drop 80) ≠ [] := wrap80_ne_nil _ hd
      rw [List.getLast?_append]
      cases hwl : wrap80 (s.drop 80) with
      | nil => exact absurd hwl hw
      | cons y ys =>
        have := ih hd
        rw [hwl] at this
        simp [this]

/- splitAll across an occurrence of the separator. -/
theorem splitAll_append (sep : Nat) (a b : List Nat) (h : sep ∉ a) :
    splitAll sep (a ++ sep :: b) = a :: splitAll sep b := by
  induction a with
  | nil => simp [splitAll]
  | cons c rest ih =>
    have hc : c ≠ sep := fun e => h (e ▸ List.mem_cons_self c rest)
    have hrest : sep ∉ rest := fun e => h (List.mem_cons_of_mem c e)
    simp only [List.cons_append, splitAll, if_neg hc, List.append_eq, ih hrest]

/- Every line of the wrapped output is at most 80 bytes. -/
theorem wrap80_lines_le (s : List Nat) (h : 10 ∉ s) :
    ∀ t ∈ splitAll 10 (wrap80 s), t.length ≤ 80 := by
  induction s using wrap80.induct with
  | case1 =>
    intro t ht
    have : wrap80 ([] : List Nat) = [] := by rw [wrap80]; rfl
    rw [this] at ht
    simp [splitAll] at ht
    simp [ht]
  | case2 s hne ih =>
    intro t ht
    have htake : 10 ∉ s.take 80 := fun e => h (List.mem_of_mem_take e)
    have hdrop : 10 ∉ s.drop 80 := fun e => h (List.mem_of_mem_drop e)
    rw [wrap80, dif_neg hne, splitAll_append 10 _ _ htake] at ht
    rcases List.mem_cons.mp ht with ht | ht
    · subst ht
      simp [List.length_take]
    · exact ih hdrop t ht

/- splitFirst across the first occurrence of the separator. -/
theorem splitFirst_append (sep : Nat) (a b : List Nat) (h : sep ∉ a) :
    splitFirst sep (a ++ sep :: b) = (a, some b) := by
  induction a with
  | nil => simp [splitFirst]
  | cons c rest ih =>
    have hc : c ≠ sep := fun e => h (e ▸ List.mem_cons_self c rest)
    have hrest : sep ∉ rest := fun e => h (List.mem_cons_of_mem c e)
    simp only [List.cons_append, splitFirst, if_neg hc, List.append_eq, ih hrest]

/- The write cipher name selection always lands on AES256. -/
theorem vaultCipherForWrite_eq (c : Option (List Nat)) : vaultCipherForWrite c = bstr "AES256" := by
  cases c with
  | none => rfl
  | some v =>
    by_cases hv : v = bstr "AES256"
    · simp [vaultCipherForWrite, hv]
    · simp [vaultCipherForWrite, hv]

/- Parsing the emitted header of an AES256 1.2 vault file. -/
theorem parseVaultHeader_add (ct : List Nat) :
    parseVaultHeader (addVaultHeader (bstr "AES256") (bstr "1.2") ct) =
      .ok (bstr "1.2", (bstr "AES256", (bstr "1.2", some ct))) := by
  have hform : addVaultHeader (bstr "AES256") (bstr "1.2") ct
      = bstr "$ANSIBLE_VAULT;1.2;AES256;1.2" ++ 10 :: ct := rfl
  have hsf : splitFirst 10 (addVaultHeader (bstr "AES256") (bstr "1.2") ct)
      = (bstr "$ANSIBLE_VAULT;1.2;AES256;1.2", some ct) := by
    rw [hform]
    exact splitFirst_append 10 _ ct (by decide)
  have hhf : headerFields (addVaultHeader (bstr "AES256") (bstr "1.2") ct)
      = [bHEADER, bstr "1.2", bstr "AES256", bstr "1.2"] := by
    unfold headerFields
    rw [hsf]
    show splitAll 59 (stripBytes (bstr "$ANSIBLE_VAULT;1.2;AES256;1.2"))
      = [bHEADER, bstr "1.2", bstr "AES256", bstr "1.2"]
    decide
  have hhv : headerVersion (addVaultHeader (bstr "AES256") (bstr "1.2") ct) = bstr "1.2" := by
    unfold headerVersion
    rw [hhf]
    decide
  have hge : versionGe12 (addVaultHeader (bstr "AES256") (bstr "1.2") ct) = true := by
    unfold versionGe12
    rw [hhv]
    decide
  simp only [parseVaultHeader, hhf, hhv, hge, hsf]
  rfl

/- The slices taken by decrypt recover exactly the salt, mac and ciphertext
   that encrypt packed, for any primitive family with 32-byte digests. -/
theorem aes256Extract_encrypt (p : CryptoPrims)
    (hhmlen : ∀ k m, (p.hmac k m).length = 32)
    (hhmb : ∀ k m x, x ∈ p.hmac k m → x < 256)
    (hks : ∀ k iv i, p.ks k iv i < 256)
    (salt pt pw : List Nat) (hslen : salt.length = 32) (hsb : ∀ b ∈ salt, b < 256)
    (hptb : ∀ b ∈ pt, b < 256) :
    aes256Extract (aes256Encrypt p salt pt pw) =
      (salt, (aes256Mac p salt pt pw, aes256Ct p salt pt pw)) := by
  have hcteq : aes256Ct p salt pt pw =
      ctrXor (p.ks (genKeyInitctr p pw salt false).1 (genKeyInitctr p pw salt false).2.2) 0 pt :=
    rfl
  have hctb : ∀ b ∈ aes256Ct p salt pt pw, b < 256 := by
    intro b hb
    rw [hcteq] at hb
    exact ctrXor_lt (p.ks (genKeyInitctr p pw salt false).1 (genKeyInitctr p pw salt false).2.2)
      (fun k => hks _ _ k) 0 pt hptb b hb
  have hmacb : ∀ b ∈ aes256Mac p salt pt pw, b < 256 := fun b hb => hhmb _ _ b hb
  have hmsgb : ∀ b ∈ aes256Message p salt pt pw, b < 256 := by
    intro b hb
    simp only [aes256Message, List.mem_append] at hb
    rcases hb with (hb | hb) | hb
    exacts [hsb b hb, hmacb b hb, hctb b hb]
  have h10 : (10 : Nat) ∉ b64encode (aes256Message p salt pt pw) := nl_not_mem_b64encode _
  have hrm : removeNL (aes256Encrypt p salt pt pw) = b64encode (aes256Message p salt pt pw) :=
    removeNL_wrap80_of_no_nl _ h10
  have hdec : b64decode (removeNL (aes256Encrypt p salt pt pw)) = aes256Message p salt pt pw := by
    rw [hrm]
    exact b64decode_b64encode _ hmsgb
  have hmaclen : (aes256Mac p salt pt pw).length = 32 := hhmlen _ _
  have hassoc : aes256Message p salt pt pw =
      salt ++ (aes256Mac p salt pt pw ++ aes256Ct p salt pt pw) := by
    unfold aes256Message
    rw [List.append_assoc]
  unfold aes256Extract
  rw [hdec, hassoc]
  refine Prod.ext ?_ (Prod.ext ?_ ?_)
  · simpa using List.take_left' hslen
  · simp only [List.drop_left' hslen]
    simpa using List.take_left' hmaclen
  · simp only [show (64 : Nat) = 32 + 32 from rfl, ← List.drop_drop,
      List.drop_left' hslen, List.drop_left' hmaclen]

/- A MAC recomputed over the same key and ciphertext always verifies. -/
theorem decryptCommon_self (p : CryptoPrims) (key1 key2 : List Nat) (iv : Nat) (ct : List Nat) :
    decryptCommon p key1 key2 iv (p.hmac key2 ct) ct false = .ok (ctrXor (p.ks key1 iv) 0 ct) := by
  unfold decryptCommon
  rw [is_equal_self]
  simp

/- Decrypting the output of encrypt under the same passphrase and any
   non-1.1 cipher version recovers the plaintext. -/
theorem aes256Decrypt_encrypt (p : CryptoPrims)
    (hhmlen : ∀ k m, (p.hmac k m).length = 32)
    (hhmb : ∀ k m x, x ∈ p.hmac k m → x < 256)
    (hks : ∀ k iv i, p.ks k iv i < 256)
    (salt pt pw : List Nat) (hslen : salt.length = 32) (hsb : ∀ b ∈ salt, b < 256)
    (hptb : ∀ b ∈ pt, b < 256)
    (ver : Option (List Nat)) (hver : ¬ (ver = some (bstr "1.1"))) :
    aes256Decrypt p (aes256Encrypt p salt pt pw) pw ver = .ok pt := by
  simp only [aes256Decrypt, if_neg hver]
  rw [aes256Extract_encrypt p hhmlen hhmb hks salt pt pw hslen hsb hptb]
  simp only [aes256Mac]
  rw [decryptCommon_self]
  rw [show aes256Ct p salt pt pw =
    ctrXor (p.ks (genKeyInitctr p pw salt false).1 (genKeyInitctr p pw salt false).2.2) 0 pt
    from rfl]
  rw [ctrXor_ctrXor]

theorem vaultRoundTrip (p : CryptoPrims) (hp : PrimsOK p) (salt pw pt blob : List Nat)
    (hslen : salt.length = 32) (hsb : ∀ b ∈ salt, b < 256) (hptb : ∀ b ∈ pt, b < 256)
    (henc : vaultEncrypt p salt pw pt none = .ok blob) :
    vaultDecrypt p (some pw) blob = .ok (bstr "1.2", (bstr "AES256", (bstr "1.2", pt))) := by
  obtain ⟨hkdf, hhmlen, hhmb, hks⟩ := hp
  unfold vaultEncrypt at henc
  by_cases hie : isVaultEncrypted pt = true
  · rw [if_pos hie] at henc
    exact absurd henc (by simp)
  · rw [if_neg hie] at henc
    injection henc with hblob
    subst hblob
    have hcw : vaultCipherForWrite none = bstr "AES256" := rfl
    rw [hcw]
    unfold vaultDecrypt
    rw [parseVaultHeader_add]
    have hdec := aes256Decrypt_encrypt p hhmlen hhmb hks salt pt pw hslen hsb hptb
      (some (bstr "1.2")) (by decide)
    simp only [hdec]
    rfl

theorem prims0_ok : PrimsOK prims0 := by
  refine ⟨fun _ _ n => ?_, fun _ _ => ?_, fun k m x hx => ?_, fun _ _ _ => ?_⟩
  · simp [prims0]
  · simp [prims0]
  · have : x = 0 := List.eq_of_mem_replicate hx
    omega
  · simp [prims0]

/-- Claim C1: for every plaintext P and passphrase Q, decrypting the armoured
output of encrypt with the same passphrase succeeds and returns exactly P,
with cipher name AES256 and cipher version 1.2.  The salt stands for the 32
random bytes drawn inside encrypt, and the primitives satisfy PrimsOK. -/
theorem c1_round_trip (p : CryptoPrims) (hp : PrimsOK p) (salt pw pt blob : List Nat)
    (hslen : salt.length = 32) (hsb : ∀ b ∈ salt, b < 256) (hptb : ∀ b ∈ pt, b < 256)
    (henc : vaultEncrypt p salt pw pt none = .ok blob) :
    vaultDecrypt p (some pw) blob = .ok (bstr "1.2", (bstr "AES256", (bstr "1.2", pt))) :=
  vaultRoundTrip p hp salt pw pt blob hslen hsb hptb henc

theorem c1_round_trip_witness :
    vaultDecrypt prims0 (some pw0) blob0 =
      .ok (bstr "1.2", (bstr "AES256", (bstr "1.2", pt0))) :=
  c1_round_trip prims0 prims0_ok salt0 pw0 pt0 blob0 (by decide) (by decide) (by decide) rfl

/- All bytes of the packed salt-mac-ciphertext message are byte values. -/
theorem aes256Message_lt (p : CryptoPrims)
    (hhmb : ∀ k m x, x ∈ p.hmac k m → x < 256)
    (hks : ∀ k iv i, p.ks k iv i < 256)
    (salt pt pw : List Nat) (hsb : ∀ b ∈ salt, b < 256) (hptb : ∀ b ∈ pt, b < 256) :
    ∀ b ∈ aes256Message p salt pt pw, b < 256 := by
  have hcteq : aes256Ct p salt pt pw =
      ctrXor (p.ks (genKeyInitctr p pw salt false).1 (genKeyInitctr p pw salt false).2.2) 0 pt :=
    rfl
  intro b hb
  simp only [aes256Message, List.mem_append] at hb
  rcases hb with (hb | hb) | hb
  · exact hsb b hb
  · exact hhmb _ _ b hb
  · rw [hcteq] at hb
    exact ctrXor_lt (p.ks (genKeyInitctr p pw salt false).1 (genKeyInitctr p pw salt false).2.2)
      (fun k => hks _ _ k) 0 pt hptb b hb

theorem b64encode_ne_nil (l : List Nat) (h : l ≠ []) : b64encode l ≠ [] := by
  cases l with
  | nil => exact absurd rfl h
  | cons a t =>
    cases t with
    | nil => simp [b64encode]
    | cons b t2 =>
      cases t2 with
      | nil => simp [b64encode]
      | cons c t3 => simp [b64encode]

/-- Claim C4: the armoured blob emitted for any plaintext and passphrase is
the header line with exactly four semicolon-separated fields and container
version 1.2, a newline, then the base64 of salt(32), mac(32) and ciphertext
wrapped into lines of at most 80 bytes each ending in a newline; the body
decodes back to the packed message, whose length is at least 64. -/
theorem c4_output_format (p : CryptoPrims) (hp : PrimsOK p) (salt pw pt blob : List Nat)
    (hslen : salt.length = 32) (hsb : ∀ b ∈ salt, b < 256) (hptb : ∀ b ∈ pt, b < 256)
    (henc : vaultEncrypt p salt pw pt none = .ok blob) :
    blob = bstr "$ANSIBLE_VAULT;1.2;AES256;1.2" ++
        10 :: wrap80 (b64encode (aes256Message p salt pt pw))
    ∧ (splitAll 59 (bstr "$ANSIBLE_VAULT;1.2;AES256;1.2")).length = 4
    ∧ (∀ t ∈ splitAll 10 (wrap80 (b64encode (aes256Message p salt pt pw))), t.length ≤ 80)
    ∧ (wrap80 (b64encode (aes256Message p salt pt pw))).getLast? = some 10
    ∧ b64decode (removeNL (wrap80 (b64encode (aes256Message p salt pt pw)))) =
        aes256Message p salt pt pw
    ∧ 64 ≤ (aes256Message p salt pt pw).length := by
  obtain ⟨hkdf, hhmlen, hhmb, hks⟩ := hp
  have hmsgb : ∀ b ∈ aes256Message p salt pt pw, b < 256 :=
    aes256Message_lt p hhmb hks salt pt pw hsb hptb
  have h10 : (10 : Nat) ∉ b64encode (aes256Message p salt pt pw) := nl_not_mem_b64encode _
  have hlen : 64 ≤ (aes256Message p salt pt pw).length := by
    have hm : (aes256Mac p salt pt pw).length = 32 := hhmlen _ _
    simp [aes256Message, List.length_append, hslen, hm]
    omega
  have hmsgne : aes256Message p salt pt pw ≠ [] := by
    intro he
    rw [he] at hlen
    simp at hlen
  refine ⟨?_, by decide, wrap80_lines_le _ h10, ?_, ?_, hlen⟩
  · unfold vaultEncrypt at henc
    by_cases hie : isVaultEncrypted pt = true
    · rw [if_pos hie] at henc
      exact absurd henc (by simp)
    · rw [if_neg hie] at henc
      injection henc with hblob
      exact hblob.symm
  · exact wrap80_getLast _ (b64encode_ne_nil _ hmsgne)
  · rw [removeNL_wrap80_of_no_nl _ h10]
    exact b64decode_b64encode _ hmsgb

theorem c4_output_format_witness :
    blob0 = bstr "$ANSIBLE_VAULT;1.2;AES256;1.2" ++
        10 :: wrap80 (b64encode (aes256Message prims0 salt0 pt0 pw0))
    ∧ (splitAll 59 (bstr "$ANSIBLE_VAULT;1.2;AES256;1.2")).length = 4
    ∧ (∀ t ∈ splitAll 10 (wrap80 (b64encode (aes256Message prims0 salt0 pt0 pw0))), t.length ≤ 80)
    ∧ (wrap80 (b64encode (aes256Message prims0 salt0 pt0 pw0))).getLast? = some 10
    ∧ b64decode (removeNL (wrap80 (b64encode (aes256Message prims0 salt0 pt0 pw0)))) =
        aes256Message prims0 salt0 pt0 pw0
    ∧ 64 ≤ (aes256Message prims0 salt0 pt0 pw0).length :=
  c4_output_format prims0 prims0_ok salt0 pw0 pt0 blob0 (by decide) (by decide) (by decide) rfl

/- VaultLib.decrypt dispatch once the header parses to an AES256 file. -/
theorem vaultDecrypt_aes256 (p : CryptoPrims) (pw data vv cver : List Nat) (body : List Nat)
    (hparse : parseVaultHeader data = .ok (vv, (bstr "AES256", (cver, some body)))) :
    vaultDecrypt p (some pw) data =
      match aes256Decrypt p body pw (some cver) with
      | .ok pt => .ok (vv, (bstr "AES256", (cver, pt)))
      | .fail => .error .DecryptionFailed
      | .err => .error .InternalError := by
  unfold vaultDecrypt
  rw [hparse]
  rfl

/- A mismatched MAC makes the shared check return the failure marker,
   regardless of the padding mode. -/
theorem decryptCommon_fail (p : CryptoPrims) (key1 key2 : List Nat) (iv : Nat)
    (mac ct : List Nat) (flag : Bool) (h : mac ≠ p.hmac key2 ct) :
    decryptCommon p key1 key2 iv mac ct flag = .fail := by
  unfold decryptCommon
  rw [is_equal_false_of_ne _ _ h]
  simp

/-- Claim C2: whenever the stored mac of an AES256 armoured input differs from
the HMAC of the ciphertext under the derived MAC key and the stored salt, the
cipher decrypt returns the failure marker and VaultLib.decrypt fails with
DecryptionFailed, yielding no plaintext; this holds on the base64 path for
any non-1.1 cipher version and on the hex path for cipher version 1.1. -/
theorem c2_auth_failure (p : CryptoPrims) (pw data vv cver body : List Nat)
    (hparse : parseVaultHeader data = .ok (vv, (bstr "AES256", (cver, some body)))) :
    (¬ (cver = bstr "1.1") →
      (aes256Extract body).2.1 ≠
        p.hmac (genKeyInitctr p pw (aes256Extract body).1 false).2.1 (aes256Extract body).2.2 →
      aes256Decrypt p body pw (some cver) = .fail
      ∧ vaultDecrypt p (some pw) data = .error .DecryptionFailed)
    ∧ (cver = bstr "1.1" →
      ∀ salt2 mac2 ct2, aes256Parse11 body = some (salt2, (mac2, ct2)) →
      mac2 ≠ p.hmac (genKeyInitctr p pw salt2 true).2.1 ct2 →
      aes256Decrypt p body pw (some cver) = .fail
      ∧ vaultDecrypt p (some pw) data = .error .DecryptionFailed) := by
  constructor
  · intro hver hmacNe
    have hv2 : ¬ (some cver = some (bstr "1.1")) := fun he => hver (Option.some_inj.mp he)
    have hfail : aes256Decrypt p body pw (some cver) = .fail := by
      simp only [aes256Decrypt, if_neg hv2]
      exact decryptCommon_fail p _ _ _ _ _ _ hmacNe
    refine ⟨hfail, ?_⟩
    rw [vaultDecrypt_aes256 p pw data vv cver body hparse, hfail]
  · intro hver salt2 mac2 ct2 hp11 hmacNe
    subst hver
    have hfail : aes256Decrypt p body pw (some (bstr "1.1")) = .fail := by
      simp [aes256Decrypt, hp11]
      exact decryptCommon_fail p _ _ _ _ _ _ hmacNe
    refine ⟨hfail, ?_⟩
    rw [vaultDecrypt_aes256 p pw data vv (bstr "1.1") body hparse, hfail]

theorem c2_auth_failure_witness :
    aes256Decrypt prims0 body0 pw0 (some (bstr "1.2")) = .fail
    ∧ vaultDecrypt prims0 (some pw0) data0 = .error .DecryptionFailed :=
  (c2_auth_failure prims0 pw0 data0 (bstr "1.2") (bstr "1.2") body0 rfl).1
    (by decide) (by decide)

/-- Claim C9: for a 1.2-format body whose base64 decoding is shorter than 64
bytes, the salt, mac and ciphertext slices are total, the extracted mac is
shorter than the 32-byte recomputed digest so the length check of is_equal
fails, and decryption fails with DecryptionFailed. -/
theorem c9_short_body (p : CryptoPrims) (hhmlen : ∀ k m, (p.hmac k m).length = 32)
    (pw data vv cver body : List Nat)
    (hparse : parseVaultHeader data = .ok (vv, (bstr "AES256", (cver, some body))))
    (hver : ¬ (cver = bstr "1.1"))
    (hshort : (b64decode (removeNL body)).length < 64) :
    ((aes256Extract body).2.1).length < 32
    ∧ is_equal (aes256Extract body).2.1
        (p.hmac (genKeyInitctr p pw (aes256Extract body).1 false).2.1
          (aes256Extract body).2.2) = false
    ∧ aes256Decrypt p body pw (some cver) = .fail
    ∧ vaultDecrypt p (some pw) data = .error .DecryptionFailed := by
  have hv2 : ¬ (some cver = some (bstr "1.1")) := fun he => hver (Option.some_inj.mp he)
  have hmlen : ((aes256Extract body).2.1).length < 32 := by
    simp only [aes256Extract, List.length_take, List.length_drop]
    omega
  have hlen_ne : ((aes256Extract body).2.1).length ≠
      (p.hmac (genKeyInitctr p pw (aes256Extract body).1 false).2.1
        (aes256Extract body).2.2).length := by
    rw [hhmlen]
    omega
  have hneq : is_equal (aes256Extract body).2.1
      (p.hmac (genKeyInitctr p pw (aes256Extract body).1 false).2.1
        (aes256Extract body).2.2) = false := by
    unfold is_equal
    rw [if_pos hlen_ne]
  have hfail : aes256Decrypt p body pw (some cver) = .fail := by
    simp only [aes256Decrypt, if_neg hv2]
    unfold decryptCommon
    rw [hneq]
    simp
  refine ⟨hmlen, hneq, hfail, ?_⟩
  rw [vaultDecrypt_aes256 p pw data vv cver body hparse, hfail]

theorem c9_short_body_witness :
    ((aes256Extract body9).2.1).length < 32
    ∧ is_equal (aes256Extract body9).2.1
        (prims0.hmac (genKeyInitctr prims0 pw0 (aes256Extract body9).1 false).2.1
          (aes256Extract body9).2.2) = false
    ∧ aes256Decrypt prims0 body9 pw0 (some (bstr "1.2")) = .fail
    ∧ vaultDecrypt prims0 (some pw0) data9 = .error .DecryptionFailed :=
  c9_short_body prims0 (fun _ _ => by simp [prims0]) pw0 data9 (bstr "1.2") (bstr "1.2") body9
    rfl (by decide) (by decide)

theorem flatten_replicate_length (n : Nat) (l : List Nat) :
    ((List.replicate n l).flatten).length = n * l.length := by
  induction n with
  | zero => simp
  | succ k ih => simp [List.replicate_succ, ih, Nat.succ_mul, Nat.add_comm]

/-- Claim C10: one overwrite pass of the custom shred writes the random chunk
floor(L divided by c) times and then its first L mod c bytes, so the bytes
written total exactly the file length L and the file-position assertion at
the end of the pass holds. -/
theorem c10_shred_pass (L c : Nat) (data : List Nat) (hd : data.length = c)
    (h1 : 1 ≤ c) (h2 : c ≤ L) :
    shredPassData data L = (List.replicate (L / c) data).flatten ++ data.take (L % c)
    ∧ (shredPassData data L).length = L := by
  subst hd
  refine ⟨rfl, ?_⟩
  unfold shredPassData
  rw [List.length_append, flatten_replicate_length, List.length_take]
  have hpos : 0 < data.length := h1
  have hmod : L % data.length < data.length := Nat.mod_lt _ hpos
  rw [Nat.min_eq_left (Nat.le_of_lt hmod)]
  have hdm := Nat.div_add_mod L data.length
  rw [Nat.mul_comm (L / data.length) data.length]
  omega

theorem c10_shred_pass_witness :
    shredPassData [7, 7] 5 = (List.replicate (5 / 2) [7, 7]).flatten ++ [7, 7].take (5 % 2)
    ∧ (shredPassData [7, 7] 5).length = 5 :=
  c10_shred_pass 5 2 [7, 7] (by decide) (by decide) (by decide)

/-- Claim C8: when rekey_file succeeds on an existing file, the mode, uid and
gid of the resulting file equal the values captured by stat before the file
was overwritten; only the contents change. -/
theorem c8_rekey_preserves_stat (p : CryptoPrims) (dflt : VFileStat)
    (oldPw newPw salt : List Nat) (cipherName : Option (List Nat)) (f f' : VFile)
    (h : rekeyFile p dflt oldPw newPw salt cipherName (some f) = .ok (some f')) :
    f'.stat.mode = f.stat.mode ∧ f'.stat.uid = f.stat.uid ∧ f'.stat.gid = f.stat.gid := by
  simp only [rekeyFile] at h
  split at h
  · exact absurd h (by simp)
  · split at h
    · exact absurd h (by simp)
    · simp only [Except.ok.injEq, Option.some.injEq] at h
      subst h
      exact ⟨rfl, rfl, rfl⟩

theorem c8_rekey_preserves_stat_witness :
    fileB.stat.mode = fileA.stat.mode ∧ fileB.stat.uid = fileA.stat.uid
    ∧ fileB.stat.gid = fileA.stat.gid :=
  c8_rekey_preserves_stat prims0 (VFileStat.mk 384 0 0) pw0 (bstr "new") salt0 none fileA fileB
    (by
      simp only [rekeyFile]
      rw [show fileA.contents = blob0 from rfl]
      rw [vaultRoundTrip prims0 prims0_ok salt0 pw0 pt0 blob0 (by decide) (by decide) (by decide)
        rfl]
      rfl)

/-- Claim C7 counterexample: the input with header line $ANSIBLE_VAULT;1.1
has two semicolon-separated fields and its first field is the magic header,
yet parsing fails with NotVault, not MalformedHeader, because the code
requires at least three fields before it even tests the first field. -/
theorem c7_counterexample :
    (headerFields (bstr "$ANSIBLE_VAULT;1.1")).length = 2
    ∧ (headerFields (bstr "$ANSIBLE_VAULT;1.1")).headD [] = bHEADER
    ∧ parseVaultHeader (bstr "$ANSIBLE_VAULT;1.1") = .error .NotVault
    ∧ VaultError.NotVault ≠ VaultError.MalformedHeader := by
  decide

/-- Claim C7 (amended): headers with at least three fields whose first field
is $ANSIBLE_VAULT but whose field count does not match the version shape fail
with MalformedHeader; inputs with fewer than three fields, even when the
first field is $ANSIBLE_VAULT, and inputs whose first field is not
$ANSIBLE_VAULT, fail with NotVault. -/
theorem c7_header_errors (data : List Nat) :
    (¬ (3 ≤ (headerFields data).length ∧ (headerFields data).headD [] = bHEADER) →
      parseVaultHeader data = .error .NotVault)
    ∧ (3 ≤ (headerFields data).length → (headerFields data).headD [] = bHEADER →
        (versionGe12 data = true → (headerFields data).length ≠ 4 →
          parseVaultHeader data = .error .MalformedHeader)
        ∧ (versionGe12 data = false → (headerFields data).length ≠ 3 →
          parseVaultHeader data = .error .MalformedHeader)) := by
  constructor
  · intro hn
    simp only [parseVaultHeader]
    rw [if_neg hn]
  · intro h3 hh
    constructor
    · intro hge hlen
      simp only [parseVaultHeader]
      rw [if_pos ⟨h3, hh⟩, if_pos hge, if_neg hlen]
    · intro hge hlen
      simp only [parseVaultHeader]
      rw [if_pos ⟨h3, hh⟩]
      rw [if_neg (show ¬ versionGe12 data = true by rw [hge]; simp)]
      rw [if_neg hlen]

theorem c7_header_errors_witness :
    parseVaultHeader (bstr "$ANSIBLE_VAULT;1.2;AES256") = .error .MalformedHeader :=
  ((c7_header_errors (bstr "$ANSIBLE_VAULT;1.2;AES256")).2 (by decide) (by decide)).1
    (by decide) (by decide)

/-- Claim C3 counterexample: for container version 1.10 the integer
components (1,10) are at least (1,2), so the claim demands exactly four
fields, yet the code accepts the three-field header, because the Python
byte-string comparison puts 1.10 below 1.2. -/
theorem c3_counterexample :
    natListLexGe (versionComponents (bstr "1.10")) [1, 2] = true
    ∧ (headerFields (bstr "$ANSIBLE_VAULT;1.10;AES256")).length = 3
    ∧ versionGe12 (bstr "$ANSIBLE_VAULT;1.10;AES256") = false
    ∧ parseVaultHeader (bstr "$ANSIBLE_VAULT;1.10;AES256")
        = .ok (bstr "1.10", (bstr "AES256", (bstr "1.10", none))) := by
  decide

theorem bytesLt_single (d1 d2 : Nat) : bytesLt [d1] [d2] = decide (d1 < d2) := by
  by_cases h : d1 < d2
  · simp [bytesLt, h]
  · by_cases h2 : d2 < d1
    · simp [bytesLt, h, h2]
    · simp [bytesLt, h, h2]

theorem digitsToNat_single (d : Nat) : digitsToNat [d] = d - 48 := by
  simp [digitsToNat]

theorem listBytesLt_digits (a : List (List Nat)) :
    ∀ b : List (List Nat),
      (∀ comp ∈ a, ∃ d, 48 ≤ d ∧ d ≤ 57 ∧ comp = [d]) →
      (∀ comp ∈ b, ∃ d, 48 ≤ d ∧ d ≤ 57 ∧ comp = [d]) →
      listBytesLt a b = natListLt (a.map digitsToNat) (b.map digitsToNat) := by
  induction a with
  | nil =>
    intro b _ _
    cases b with
    | nil => rfl
    | cons y ys => rfl
  | cons x xs ih =>
    intro b ha hb
    cases b with
    | nil => rfl
    | cons y ys =>
      obtain ⟨d1, hd1a, hd1b, hx⟩ := ha x (List.mem_cons_self x xs)
      obtain ⟨d2, hd2a, hd2b, hy⟩ := hb y (List.mem_cons_self y ys)
      subst hx
      subst hy
      have hxs : ∀ comp ∈ xs, ∃ d, 48 ≤ d ∧ d ≤ 57 ∧ comp = [d] :=
        fun c hc => ha c (List.mem_cons_of_mem _ hc)
      have hys : ∀ comp ∈ ys, ∃ d, 48 ≤ d ∧ d ≤ 57 ∧ comp = [d] :=
        fun c hc => hb c (List.mem_cons_of_mem _ hc)
      simp only [listBytesLt, natListLt, List.map_cons, bytesLt_single, digitsToNat_single]
      rcases Nat.lt_trichotomy d1 d2 with h | h | h
      · have hq : d1 - 48 < d2 - 48 := by omega
        simp [h, hq]
      · subst h
        simp [Nat.lt_irrefl, ih ys hxs hys]
      · have hq1 : ¬ d1 < d2 := by omega
        have hq2 : ¬ (d1 - 48 < d2 - 48) := by omega
        have hq3 : d2 - 48 < d1 - 48 := by omega
        simp [hq1, h, hq2, hq3]

/-- Claim C3 (amended): the container-version test compares the dotted
components as Python byte strings, lexicographically on byte values, not as
integers: with at least three fields and the magic first field, exactly four
fields are accepted and field 3 becomes the cipher version when the byte
comparison puts the version at or above 1.2, and otherwise exactly three
fields are accepted with the cipher version set to the container version.
The byte comparison agrees with the integer comparison exactly while every
dotted component is a single decimal digit. -/
theorem c3_version_comparison :
    (∀ data, 3 ≤ (headerFields data).length → (headerFields data).headD [] = bHEADER →
      (versionGe12 data = true → (headerFields data).length = 4 →
        parseVaultHeader data = .ok (headerVersion data,
          (stripBytes ((headerFields data).getD 2 []),
            (stripBytes ((headerFields data).getD 3 []), (splitFirst 10 data).2))))
      ∧ (versionGe12 data = false → (headerFields data).length = 3 →
        parseVaultHeader data = .ok (headerVersion data,
          (stripBytes ((headerFields data).getD 2 []),
            (headerVersion data, (splitFirst 10 data).2)))))
    ∧ (∀ a b : List (List Nat),
        (∀ comp ∈ a, ∃ d, 48 ≤ d ∧ d ≤ 57 ∧ comp = [d]) →
        (∀ comp ∈ b, ∃ d, 48 ≤ d ∧ d ≤ 57 ∧ comp = [d]) →
        listBytesGe a b = natListLexGe (a.map digitsToNat) (b.map digitsToNat))
    ∧ (∀ v : List Nat,
        (∀ comp ∈ splitAll 46 v, ∃ d, 48 ≤ d ∧ d ≤ 57 ∧ comp = [d]) →
        listBytesGe (splitAll 46 v) [bstr "1", bstr "2"]
          = natListLexGe (versionComponents v) [1, 2]) := by
  have hcmp : ∀ a b : List (List Nat),
      (∀ comp ∈ a, ∃ d, 48 ≤ d ∧ d ≤ 57 ∧ comp = [d]) →
      (∀ comp ∈ b, ∃ d, 48 ≤ d ∧ d ≤ 57 ∧ comp = [d]) →
      listBytesGe a b = natListLexGe (a.map digitsToNat) (b.map digitsToNat) := by
    intro a b ha hb
    unfold listBytesGe natListLexGe
    rw [listBytesLt_digits a b ha hb]
  refine ⟨?_, hcmp, ?_⟩
  · intro data h3 hh
    constructor
    · intro hge hlen
      simp only [parseVaultHeader]
      rw [if_pos ⟨h3, hh⟩, if_pos hge, if_pos hlen]
    · intro hge hlen
      simp only [parseVaultHeader]
      rw [if_pos ⟨h3, hh⟩]
      rw [if_neg (show ¬ versionGe12 data = true by rw [hge]; simp)]
      rw [if_pos hlen]
  · intro v hv
    have hb : ∀ comp ∈ [bstr "1", bstr "2"], ∃ d, 48 ≤ d ∧ d ≤ 57 ∧ comp = [d] := by
      intro comp hc
      rcases List.mem_cons.mp hc with rfl | hc2
      · exact ⟨49, by omega, by omega, rfl⟩
      · rcases List.mem_cons.mp hc2 with rfl | hc3
        · exact ⟨50, by omega, by omega, rfl⟩
        · exact absurd hc3 (List.not_mem_nil _)
    have := hcmp (splitAll 46 v) [bstr "1", bstr "2"] hv hb
    rw [this]
    rfl

theorem c3_version_comparison_witness :
    parseVaultHeader (bstr "$ANSIBLE_VAULT;1.1;AES256")
      = .ok (headerVersion (bstr "$ANSIBLE_VAULT;1.1;AES256"),
        (stripBytes ((headerFields (bstr "$ANSIBLE_VAULT;1.1;AES256")).getD 2 []),
          (headerVersion (bstr "$ANSIBLE_VAULT;1.1;AES256"),
            (splitFirst 10 (bstr "$ANSIBLE_VAULT;1.1;AES256")).2)))
    ∧ listBytesGe (splitAll 46 (bstr "1.1")) [bstr "1", bstr "2"]
        = natListLexGe (versionComponents (bstr "1.1")) [1, 2] :=
  ⟨((c3_version_comparison.1 (bstr "$ANSIBLE_VAULT;1.1;AES256") (by decide) (by decide)).2
      (by decide) (by decide)),
   c3_version_comparison.2.2 (bstr "1.1")
     (by
       intro comp hc
       have hs : splitAll 46 (bstr "1.1") = [[49], [49]] := by decide
       rw [hs] at hc
       rcases List.mem_cons.mp hc with rfl | hc2
       · exact ⟨49, by omega, by omega, rfl⟩
       · rcases List.mem_cons.mp hc2 with rfl | hc3
         · exact ⟨49, by omega, by omega, rfl⟩
         · exact absurd hc3 (List.not_mem_nil _))⟩

/-- Claim C6 (amended): for an AES256 decrypt with cipher version 1.1 whose
MAC verifies, when the last byte n of the CTR-decrypted plaintext is at
least 1, exactly the final n bytes are dropped with no validation of their
contents; when the last byte is 0, the entire plaintext is dropped (the
Python slice with negative zero), not zero bytes; for every other cipher
version the decrypted plaintext is returned unchanged. -/
theorem c6_padding_strip (p : CryptoPrims) (pw message salt mac ct : List Nat)
    (hparse : aes256Parse11 message = some (salt, (mac, ct)))
    (hmac : is_equal mac (p.hmac (genKeyInitctr p pw salt true).2.1 ct) = true) :
    (∀ n, (ctrDecrypt p pw salt ct true).getLast? = some n → 1 ≤ n →
      aes256Decrypt p message pw (some (bstr "1.1")) =
        .ok ((ctrDecrypt p pw salt ct true).take ((ctrDecrypt p pw salt ct true).length - n)))
    ∧ ((ctrDecrypt p pw salt ct true).getLast? = some 0 →
        aes256Decrypt p message pw (some (bstr "1.1")) = .ok [])
    ∧ (∀ ver msg2, ¬ (ver = some (bstr "1.1")) →
        is_equal (aes256Extract msg2).2.1
          (p.hmac (genKeyInitctr p pw (aes256Extract msg2).1 false).2.1
            (aes256Extract msg2).2.2) = true →
        aes256Decrypt p msg2 pw ver =
          .ok (ctrDecrypt p pw (aes256Extract msg2).1 (aes256Extract msg2).2.2 false)) := by
  have hpt : ctrXor (p.ks (genKeyInitctr p pw salt true).1 (genKeyInitctr p pw salt true).2.2)
      0 ct = ctrDecrypt p pw salt ct true := rfl
  have hdec : aes256Decrypt p message pw (some (bstr "1.1")) =
      decryptCommon p (genKeyInitctr p pw salt true).1 (genKeyInitctr p pw salt true).2.1
        (genKeyInitctr p pw salt true).2.2 mac ct true := by
    simp [aes256Decrypt, hparse]
  refine ⟨?_, ?_, ?_⟩
  · intro n hlast hn
    rw [hdec]
    simp only [decryptCommon, hmac]
    rw [if_neg (show ¬ (true : Bool) = false by simp)]
    rw [hpt, hlast]
    simp only [pySliceDropLast]
    rw [if_neg (by omega : ¬ n = 0)]
    simp
  · intro hlast
    rw [hdec]
    simp only [decryptCommon, hmac]
    rw [if_neg (show ¬ (true : Bool) = false by simp)]
    rw [hpt, hlast]
    simp [pySliceDropLast]
  · intro ver msg2 hver hm2
    simp only [aes256Decrypt, if_neg hver]
    simp only [decryptCommon, hm2]
    rw [if_neg (show ¬ (true : Bool) = false by simp)]
    rfl

/-- Claim C6 counterexample: a 1.1 decrypt whose MAC verifies and whose
CTR-decrypted plaintext is the two bytes 5, 0 returns the empty plaintext
instead of dropping zero bytes: the claim predicts the unchanged plaintext,
the code returns nothing. -/
theorem c6_counterexample :
    aes256Decrypt prims0 msg11z pw0 (some (bstr "1.1")) = .ok []
    ∧ (ctrDecrypt prims0 pw0 [0] [5, 0] true).getLast? = some 0
    ∧ aes256Decrypt prims0 msg11z pw0 (some (bstr "1.1")) ≠
        .ok (ctrDecrypt prims0 pw0 [0] [5, 0] true) := by
  decide

theorem c6_padding_strip_witness :
    aes256Decrypt prims0 msg11 pw0 (some (bstr "1.1")) = .ok [5] := by
  have h := (c6_padding_strip prims0 pw0 msg11 [0] (List.replicate 32 0) [5, 1]
    (by decide) (by decide)).1 1 (by decide) (by decide)
  exact h.trans (by decide)
